import Mathlib

/-!
# Stratified aggregation over an ACS microdata extract

A shallow embedding of the data operations of `lab05_acs_summaries.ipynb`.
The notebook works on a pandas `DataFrame`; we model a data frame as a list
of column names together with rows of optional rationals, where `none` is
the absent marker (pandas `NaN`) and rational numbers stand for the float
values of the source.

Each definition embeds one pandas expression of the notebook:

* `missingnessReport`  — `df.isnull().mean()`
* `summaryOf` / `summarize` — `series.describe()` (count of non-missing
  values, mean, standard deviation, min, quartiles, max; pandas drops
  `NaN` before computing each statistic);
* `groupSummaries` — `df.groupby(G)[t].describe()`
* `groupSizes` — `df.groupby(G).size()`
* `sortByStatistic` — `....describe().sort_values(by = name)`
* `unstack` — `grp.size().unstack()` / `grp_median.unstack()`
* `negIncomeShare` — `(df["HINCP_1000"] < 0).mean()` with
  `df["HINCP_1000"] = df["HINCP"] / 1000`.

Pandas specifics kept by the embedding: `groupby` uses its default
`dropna=True`, so a row whose value in some grouping column is absent
belongs to no group; `groupby` sorts the group keys; `describe` on an
all-missing group reports count `0` and `NaN` for every other field;
`sort_values` uses `na_position='last'`, so absent sort keys go to the
end for both directions; `unstack` produces the full rectangular grid
over the sorted distinct level values, filling unobserved combinations
with `NaN`; the mean of an empty series (zero rows) is `NaN`.
-/

namespace Lab05

/-- A cell value: `none` is the absent marker (pandas `NaN`). -/
abbrev Val := Option ℚ

/-- A data frame: column names and rows of cells. -/
structure Dataset where
  cols : List String
  rows : List (List Val)
deriving DecidableEq

/-- Position of a column in the schema (`none` when the name is absent,
where pandas raises `KeyError`). -/
def colIdx (d : Dataset) (c : String) : Option Nat :=
  d.cols.findIdx? (· == c)

/-- Positions of a list of columns; `none` as soon as one is absent. -/
def colIdxs (d : Dataset) : List String → Option (List Nat)
  | [] => some []
  | c :: cs =>
    match colIdx d c, colIdxs d cs with
    | some i, some is => some (i :: is)
    | _, _ => none

/-- The cell of a row at a column position. -/
def cell (r : List Val) (i : Nat) : Val := r.getD i none

/-- The values of the column at position `i`, in row order. -/
def columnValsIdx (d : Dataset) (i : Nat) : List Val :=
  d.rows.map (fun r => cell r i)

/-- All-present extraction: `some` of the list of values when every cell
is present, `none` otherwise. -/
def seqOpt : List Val → Option (List ℚ)
  | [] => some []
  | none :: _ => none
  | some x :: vs => (seqOpt vs).map (fun xs => x :: xs)

/-- The grouping key of a row: the tuple of its grouping-column values.
With pandas' default `dropna=True`, a row with an absent grouping value
has no key and is dropped from the grouping. -/
def rowKey (gIdxs : List Nat) (r : List Val) : Option (List ℚ) :=
  seqOpt (gIdxs.map (fun i => cell r i))

/-- Lexicographic order on grouping keys (pandas sorts a MultiIndex
componentwise). -/
def keyLe : List ℚ → List ℚ → Bool
  | [], _ => true
  | _ :: _, [] => false
  | a :: as, b :: bs => if a < b then true else if b < a then false else keyLe as bs

/-- Comparison on rationals as a boolean. -/
def qLe (a b : ℚ) : Bool := decide (a ≤ b)

/-- Insert `a` in front of the first element `b` with `le a b = true`. -/
def insertLe (le : α → α → Bool) (a : α) : List α → List α
  | [] => [a]
  | b :: bs => if le a b then a :: b :: bs else b :: insertLe le a bs

/-- Insertion sort by a boolean comparator.  Wherever the notebook's
pandas calls sort (group keys, level labels, values for quantiles,
summaries), only comparator-level behaviour of the result — it is a
permutation of the input that is ordered for the comparator — is
relied on by the theorems below; the concrete order this
implementation gives elements that compare equal is a representation
choice, since pandas' default sort kind guarantees none. -/
def insSort (le : α → α → Bool) : List α → List α
  | [] => []
  | a :: l => insertLe le a (insSort le l)

/-- The sorted distinct grouping keys observed in the data
(`groupby` with its default `sort=True` and `dropna=True`). -/
def keysOf (d : Dataset) (gIdxs : List Nat) : List (List ℚ) :=
  insSort keyLe (d.rows.filterMap (rowKey gIdxs)).dedup

/-- Floor of a nonnegative rational as a natural number
(`⌊q⌋ = q.num / q.den` for `0 ≤ q`; kept computable on purpose). -/
def ratFloorNat (q : ℚ) : Nat := q.num.toNat / q.den

/-- Linear-interpolation quantile of an already sorted list
(pandas `quantile(q, interpolation='linear')`): position
`h = q * (n - 1)` between order statistics. `none` on no data. -/
def quantileSorted (xs : List ℚ) (q : ℚ) : Option ℚ :=
  if xs.length = 0 then none
  else
    let h : ℚ := q * ((xs.length : ℚ) - 1)
    let i : Nat := ratFloorNat h
    let lo := xs.getD i 0
    let hi := xs.getD (i + 1) lo
    some (lo + (h - (i : ℚ)) * (hi - lo))

/-- Mean of a list of rationals; `NaN` (`none`) on no data. -/
def meanQ (xs : List ℚ) : Option ℚ :=
  if xs.length = 0 then none
  else some (xs.sum / (xs.length : ℚ))

/-- Sample variance with `ddof = 1` (pandas `std` squared); `NaN`
(`none`) on fewer than two data points. -/
def varQ (xs : List ℚ) : Option ℚ :=
  if xs.length < 2 then none
  else some ((xs.map (fun x => (x - xs.sum / (xs.length : ℚ)) ^ 2)).sum / ((xs.length : ℚ) - 1))

/-- The fixed-shape result of pandas `describe` on a numeric series.
`var` carries the square of the reported standard deviation: the square
root of a rational is not rational, and `√` is strictly monotone and
absent exactly when `var` is, so presence, absence and relative order of
the `std` field are all faithfully represented by `var`. -/
structure SummaryRecord where
  count : Nat
  mean : Option ℚ
  var : Option ℚ
  min : Option ℚ
  q25 : Option ℚ
  q50 : Option ℚ
  q75 : Option ℚ
  max : Option ℚ
deriving DecidableEq

/-- `describe` over a list of present values. -/
def summaryOf (xs : List ℚ) : SummaryRecord :=
  let sorted := insSort qLe xs
  { count := xs.length
    mean := meanQ xs
    var := varQ xs
    min := xs.min?
    q25 := quantileSorted sorted (1/4)
    q50 := quantileSorted sorted (1/2)
    q75 := quantileSorted sorted (3/4)
    max := xs.max? }

/-- `describe` over a series with possible `NaN` cells: every statistic
is computed from the non-missing values only. -/
def summarize (vals : List Val) : SummaryRecord :=
  summaryOf (vals.filterMap id)

/-- The error taxonomy of the aggregation operations.  The pandas code
raises `KeyError` for a column name absent from the schema, modelled by
`columnNotFound`; `emptyDataset` and `ambiguousFactor` complete the
taxonomy of spec §7 and are never produced by the notebook's code. -/
inductive AggError where
  | columnNotFound
  | emptyDataset
  | ambiguousFactor
deriving DecidableEq

/-- `df.groupby(G)[t].describe()`: the per-stratum summary records,
keyed by the sorted distinct observed grouping keys. -/
def groupSummaries (d : Dataset) (G : List String) (t : String) :
    Except AggError (List (List ℚ × SummaryRecord)) :=
  match colIdxs d G with
  | none => .error .columnNotFound
  | some gIdxs =>
    match colIdx d t with
    | none => .error .columnNotFound
    | some ti =>
      .ok ((keysOf d gIdxs).map (fun k =>
        (k, summarize ((d.rows.filter (fun r => decide (rowKey gIdxs r = some k))).map
              (fun r => cell r ti)))))

/-- `df.groupby(G).size()`: the number of records of each stratum,
counting rows whose target value is missing. -/
def groupSizes (d : Dataset) (G : List String) :
    Except AggError (List (List ℚ × Nat)) :=
  match colIdxs d G with
  | none => .error .columnNotFound
  | some gIdxs =>
    .ok ((keysOf d gIdxs).map (fun k =>
      (k, d.rows.countP (fun r => decide (rowKey gIdxs r = some k)))))

/-- Select a `describe` field by its pandas column name.  `"std"` is
represented by the `var` field (see `SummaryRecord`). -/
def getStat (name : String) (r : SummaryRecord) : Option ℚ :=
  match name with
  | "count" => some (r.count : ℚ)
  | "mean" => r.mean
  | "std" => r.var
  | "min" => r.min
  | "25%" => r.q25
  | "50%" => r.q50
  | "75%" => r.q75
  | "max" => r.max
  | _ => none

/-- The column names of a `describe` result. -/
def statNames : List String :=
  ["count", "mean", "std", "min", "25%", "50%", "75%", "max"]

/-- `sort_values` comparator on one statistic: absent keys sort last
for both directions (pandas `na_position='last'`). -/
def statLe (asc : Bool) : Option ℚ → Option ℚ → Bool
  | none, none => true
  | none, some _ => false
  | some _, none => true
  | some x, some y => if asc then decide (x ≤ y) else decide (y ≤ x)

/-- The `sort_values` comparator lifted to keyed summary records. -/
def pairLe (asc : Bool) (name : String) (a b : List ℚ × SummaryRecord) : Bool :=
  statLe asc (getStat name a.2) (getStat name b.2)

/-- `....describe().sort_values(by = name, ascending = asc)` on a keyed
collection of summary records; `KeyError` (`columnNotFound`) on a field
name `describe` does not produce.  pandas guarantees only the
comparator order of the result: sorted by the chosen field, with
absent values last for both directions (`na_position='last'`); its
default sort kind (`quicksort`) is documented as not stable, so the
order among strata whose statistics compare equal is not guaranteed —
the insertion sort used here is one valid realisation, and no theorem
below relies on its particular tie order. -/
def sortByStatistic (s : List (List ℚ × SummaryRecord)) (name : String) (asc : Bool) :
    Except AggError (List (List ℚ × SummaryRecord)) :=
  if name ∈ statNames then .ok (insSort (pairLe asc name) s)
  else .error .columnNotFound

/-- First value stored under a two-component key, the absent marker when
the key was never observed (one cell of an `unstack` result). -/
def cellLookup (s : List ((ℚ × ℚ) × Val)) (r c : ℚ) : Val :=
  match s.find? (fun e => decide (e.1 = (r, c))) with
  | some e => e.2
  | none => none

/-- `series.unstack()` on a series keyed by two factors: row labels are
the sorted distinct first components, column labels the sorted distinct
second components, and the grid holds the stored value where the key
pair was observed and the absent marker elsewhere. -/
def unstack (s : List ((ℚ × ℚ) × Val)) : List ℚ × List ℚ × List (List Val) :=
  let rls := insSort qLe ((s.map (fun e => e.1.1)).dedup)
  let cls := insSort qLe ((s.map (fun e => e.1.2)).dedup)
  (rls, cls, rls.map (fun r => cls.map (fun c => cellLookup s r c)))

/-- Proportion of absent values in a list of cells; pandas `mean` of an
empty boolean series is `NaN`. -/
def propMissing (vs : List Val) : Val :=
  if vs.length = 0 then none
  else some (((vs.countP (fun v => v.isNone) : ℕ) : ℚ) / ((vs.length : ℕ) : ℚ))

/-- `df.isnull().mean()`: for every column of the schema in order, the
proportion of records whose value in that column is absent. -/
def missingnessReport (d : Dataset) : List (String × Val) :=
  d.cols.enum.map (fun ic => (ic.2, propMissing (columnValsIdx d ic.1)))

/-- `df["HINCP"] / 1000`: arithmetic propagates the absent marker. -/
def hincp1000 (v : Val) : Val := v.map (fun x => x / 1000)

/-- `series < 0` elementwise: pandas compares `NaN < 0` as `False`. -/
def ltZero (v : Val) : Bool :=
  match v with
  | some x => decide (x < 0)
  | none => false

/-- Mean of a boolean series: the proportion of `True` entries over all
entries; `NaN` on an empty series. -/
def boolMean (bs : List Bool) : Val :=
  if bs.length = 0 then none
  else some (((bs.countP id : ℕ) : ℚ) / ((bs.length : ℕ) : ℚ))

/-- `(df["HINCP_1000"] < 0).mean()` with `HINCP_1000 = HINCP / 1000`,
read off the column at position `i`. -/
def negIncomeShare (d : Dataset) (i : Nat) : Val :=
  boolMean ((columnValsIdx d i).map (fun v => ltZero (hincp1000 v)))

/-- `groupSummaries` as a state transformer, returning the data frame
alongside its result (the pandas call allocates a new object). -/
def runGroupSummaries (d : Dataset) (G : List String) (t : String) :
    Except AggError (List (List ℚ × SummaryRecord)) × Dataset :=
  (groupSummaries d G t, d)

/-- `sortByStatistic` as a state transformer over its input summaries. -/
def runSortByStatistic (s : List (List ℚ × SummaryRecord)) (name : String) (asc : Bool) :
    Except AggError (List (List ℚ × SummaryRecord)) × List (List ℚ × SummaryRecord) :=
  (sortByStatistic s name asc, s)

/-- `unstack` as a state transformer over its input summaries. -/
def runUnstack (s : List ((ℚ × ℚ) × Val)) :
    (List ℚ × List ℚ × List (List Val)) × List ((ℚ × ℚ) × Val) :=
  (unstack s, s)

/-- `missingnessReport` as a state transformer over the data frame. -/
def runMissingnessReport (d : Dataset) : List (String × Val) × Dataset :=
  (missingnessReport d, d)

/-- Concrete keyed summaries used in the statements below: strata `A`,
`B`, `C` (keys `[1]`, `[2]`, `[3]`) with medians `5`, absent, `2` — the
worked example of the sorting contract. -/
def sortExample : List (List ℚ × SummaryRecord) :=
  [([1], summaryOf [5]), ([2], summaryOf []), ([3], summaryOf [2])]

/-- Concrete data frame used in the witnesses below: a grouping column
`G` (with one absent value) and a target `X` (with one absent value). -/
def datasetW : Dataset :=
  Dataset.mk ["G", "X"] [[some 1, some 2], [none, some 3], [some 1, none]]

end Lab05

namespace Lab05

/-! ## Generic facts about the stable insertion sort -/

theorem perm_insertLe (le : α → α → Bool) (a : α) :
    ∀ l : List α, (insertLe le a l).Perm (a :: l)
  | [] => List.Perm.refl _
  | b :: bs => by
    unfold insertLe
    by_cases h : le a b = true
    · simp [h]
    · rw [if_neg h]
      exact ((perm_insertLe le a bs).cons b).trans (List.Perm.swap a b bs)

theorem perm_insSort (le : α → α → Bool) : ∀ l : List α, (insSort le l).Perm l
  | [] => List.Perm.refl _
  | a :: l => (perm_insertLe le a _).trans ((perm_insSort le l).cons a)

theorem mem_insSort (le : α → α → Bool) (l : List α) (x : α) :
    x ∈ insSort le l ↔ x ∈ l :=
  (perm_insSort le l).mem_iff

theorem mem_insertLe (le : α → α → Bool) (a : α) (l : List α) (x : α) :
    x ∈ insertLe le a l ↔ x = a ∨ x ∈ l := by
  rw [(perm_insertLe le a l).mem_iff, List.mem_cons]

/-- Inserting into a sorted list preserves sortedness for a combined
order `tLe`: `le` is the comparator used by the sort, `ltp` an order the
inserted element bears to every list element (in a stable sort, the
original position order on ties). -/
theorem pairwise_insertLe {le tLe : α → α → Bool} {ltp : α → α → Prop}
    (htrans : ∀ a b c, tLe a b = true → tLe b c = true → tLe a c = true)
    (hle : ∀ a b, le a b = true → ltp a b → tLe a b = true)
    (hgt : ∀ a b, le a b = false → tLe b a = true)
    (a : α) :
    ∀ l : List α, l.Pairwise (fun x y => tLe x y = true) → (∀ e ∈ l, ltp a e) →
      (insertLe le a l).Pairwise (fun x y => tLe x y = true)
  | [], _, _ => by simp [insertLe]
  | b :: bs, hp, hal => by
    rw [List.pairwise_cons] at hp
    obtain ⟨hb, hbs⟩ := hp
    unfold insertLe
    by_cases h : le a b = true
    · rw [if_pos h]
      refine List.Pairwise.cons ?_ (List.Pairwise.cons hb hbs)
      intro e he
      rcases List.mem_cons.mp he with rfl | he'
      · exact hle a e h (hal e (List.mem_cons_self e bs))
      · exact htrans a b e (hle a b h (hal b (List.mem_cons_self b bs))) (hb e he')
    · rw [if_neg h]
      refine List.Pairwise.cons ?_
        (pairwise_insertLe htrans hle hgt a bs hbs
          (fun e he => hal e (List.mem_cons_of_mem b he)))
      intro e he
      rcases (mem_insertLe le a bs e).mp he with rfl | he'
      · exact hgt e b (Bool.not_eq_true _ ▸ h)
      · exact hb e he'

/-- The stable insertion sort by `le` of a list that is strictly ordered
by `ltp` is sorted for the combined order `tLe`. -/
theorem pairwise_insSort {le tLe : α → α → Bool} {ltp : α → α → Prop}
    (htrans : ∀ a b c, tLe a b = true → tLe b c = true → tLe a c = true)
    (hle : ∀ a b, le a b = true → ltp a b → tLe a b = true)
    (hgt : ∀ a b, le a b = false → tLe b a = true) :
    ∀ l : List α, l.Pairwise ltp →
      (insSort le l).Pairwise (fun x y => tLe x y = true)
  | [], _ => by simp [insSort]
  | a :: l, hp => by
    rw [List.pairwise_cons] at hp
    obtain ⟨ha, hl⟩ := hp
    exact pairwise_insertLe htrans hle hgt a _
      (pairwise_insSort htrans hle hgt l hl)
      (fun e he => ha e ((mem_insSort le l e).mp he))

theorem pairwise_true : ∀ l : List α, l.Pairwise (fun _ _ => True)
  | [] => List.Pairwise.nil
  | _ :: l => List.Pairwise.cons (fun _ _ => trivial) (pairwise_true l)

/-- Sortedness of the insertion sort for a total transitive comparator. -/
theorem pairwise_insSort_of_total {le : α → α → Bool}
    (htrans : ∀ a b c, le a b = true → le b c = true → le a c = true)
    (hgt : ∀ a b, le a b = false → le b a = true) (l : List α) :
    (insSort le l).Pairwise (fun x y => le x y = true) :=
  pairwise_insSort htrans (fun a b h _ => h) hgt l (pairwise_true l)

/-! ## The concrete comparators -/

theorem qLe_trans (a b c : ℚ) (hab : qLe a b = true) (hbc : qLe b c = true) :
    qLe a c = true := by
  simp only [qLe, decide_eq_true_eq] at *
  exact le_trans hab hbc

theorem qLe_of_not (a b : ℚ) (h : qLe a b = false) : qLe b a = true := by
  simp only [qLe, decide_eq_false_iff_not, decide_eq_true_eq] at *
  exact le_of_lt (lt_of_not_le h)

theorem keyLe_trans : ∀ a b c : List ℚ,
    keyLe a b = true → keyLe b c = true → keyLe a c = true
  | [], _, _ => by simp [keyLe]
  | x :: xs, [], c => by simp [keyLe]
  | x :: xs, y :: ys, [] => by simp [keyLe]
  | x :: xs, y :: ys, z :: zs => by
    by_cases hxy : x < y
    · by_cases hyz : y < z
      · intro _ _
        simp [keyLe, lt_trans hxy hyz]
      · by_cases hzy : z < y
        · intro _ h2
          rw [keyLe] at h2
          simp [hyz, hzy] at h2
        · have hyz' : y = z := le_antisymm (not_lt.mp hzy) (not_lt.mp hyz)
          subst hyz'
          intro _ _
          simp [keyLe, hxy]
    · by_cases hyx : y < x
      · intro h1
        rw [keyLe] at h1
        simp [hxy, hyx] at h1
      · have hxy' : x = y := le_antisymm (not_lt.mp hyx) (not_lt.mp hxy)
        subst hxy'
        intro h1 h2
        rw [keyLe] at h1
        simp only [lt_irrefl, if_false] at h1
        by_cases hyz : x < z
        · simp [keyLe, hyz]
        · by_cases hzy : z < x
          · rw [keyLe] at h2
            simp [hyz, hzy] at h2
          · have hyz' : x = z := le_antisymm (not_lt.mp hzy) (not_lt.mp hyz)
            subst hyz'
            rw [keyLe] at h2 ⊢
            simp only [lt_irrefl, if_false] at h2 ⊢
            exact keyLe_trans xs ys zs h1 h2

theorem keyLe_of_not : ∀ a b : List ℚ, keyLe a b = false → keyLe b a = true
  | [], b => by simp [keyLe]
  | x :: xs, [] => by simp [keyLe]
  | x :: xs, y :: ys => by
    intro h
    rw [keyLe] at h ⊢
    by_cases hxy : x < y
    · simp [hxy] at h
    · by_cases hyx : y < x
      · simp [hyx]
      · simp only [hxy, hyx, if_false] at h ⊢
        exact keyLe_of_not xs ys h

theorem keyLe_total (a b : List ℚ) : keyLe a b = true ∨ keyLe b a = true := by
  by_cases h : keyLe a b = true
  · exact Or.inl h
  · exact Or.inr (keyLe_of_not a b (Bool.not_eq_true _ ▸ h))

theorem statLe_trans (asc : Bool) :
    ∀ a b c : Option ℚ, statLe asc a b = true → statLe asc b c = true →
      statLe asc a c = true := by
  intro a b c h1 h2
  cases a with
  | none =>
    cases b with
    | none =>
      cases c with
      | none => rfl
      | some z => exact Bool.noConfusion (show false = true from h2)
    | some y => exact Bool.noConfusion (show false = true from h1)
  | some x =>
    cases c with
    | none => rfl
    | some z =>
      cases b with
      | none => exact Bool.noConfusion (show false = true from h2)
      | some y =>
        have h1' : (if asc = true then decide (x ≤ y) else decide (y ≤ x)) = true := h1
        have h2' : (if asc = true then decide (y ≤ z) else decide (z ≤ y)) = true := h2
        show (if asc = true then decide (x ≤ z) else decide (z ≤ x)) = true
        cases asc with
        | true =>
          rw [if_pos rfl] at h1' h2' ⊢
          exact decide_eq_true (le_trans (of_decide_eq_true h1') (of_decide_eq_true h2'))
        | false =>
          rw [if_neg Bool.false_ne_true] at h1' h2' ⊢
          exact decide_eq_true (le_trans (of_decide_eq_true h2') (of_decide_eq_true h1'))

theorem statLe_of_not (asc : Bool) :
    ∀ a b : Option ℚ, statLe asc a b = false → statLe asc b a = true := by
  intro a b h
  cases a with
  | none =>
    cases b with
    | none => exact Bool.noConfusion (show true = false from h)
    | some y => rfl
  | some x =>
    cases b with
    | none => exact Bool.noConfusion (show true = false from h)
    | some y =>
      have h' : (if asc = true then decide (x ≤ y) else decide (y ≤ x)) = false := h
      show (if asc = true then decide (y ≤ x) else decide (x ≤ y)) = true
      cases asc with
      | true =>
        rw [if_pos rfl] at h' ⊢
        exact decide_eq_true (le_of_lt (not_le.mp (of_decide_eq_false h')))
      | false =>
        rw [if_neg Bool.false_ne_true] at h' ⊢
        exact decide_eq_true (le_of_lt (not_le.mp (of_decide_eq_false h')))

theorem pairLe_trans (asc : Bool) (name : String) (a b c : List ℚ × SummaryRecord)
    (h1 : pairLe asc name a b = true) (h2 : pairLe asc name b c = true) :
    pairLe asc name a c = true :=
  statLe_trans asc (getStat name a.2) (getStat name b.2) (getStat name c.2) h1 h2

theorem pairLe_of_not (asc : Bool) (name : String) (a b : List ℚ × SummaryRecord)
    (h : pairLe asc name a b = false) : pairLe asc name b a = true :=
  statLe_of_not asc (getStat name a.2) (getStat name b.2) h

/-- An element whose statistic is absent admits no element with a
present statistic after it in a `pairLe`-ordered list: absent sorts
last regardless of direction. -/
theorem pairLe_absent_last (asc : Bool) (name : String) (a b : List ℚ × SummaryRecord)
    (h : pairLe asc name a b = true) (ha : getStat name a.2 = none) :
    getStat name b.2 = none := by
  unfold pairLe statLe at h
  rw [ha] at h
  cases hb : getStat name b.2 with
  | none => rfl
  | some y =>
    rw [hb] at h
    exact absurd (show false = true from h) Bool.false_ne_true

/-! ## Counting rows across strata -/

theorem sum_map_add (f g : β → ℕ) :
    ∀ ks : List β, (ks.map (fun k => f k + g k)).sum = (ks.map f).sum + (ks.map g).sum
  | [] => by simp
  | k :: ks => by
    simp only [List.map_cons, List.sum_cons, sum_map_add f g ks]
    omega

theorem sum_indicator [DecidableEq β] (v : β) :
    ∀ ks : List β, ks.Nodup → v ∈ ks →
      (ks.map (fun k => if v = k then 1 else 0)).sum = 1
  | [], _, hv => absurd hv (List.not_mem_nil v)
  | k :: ks, hnd, hv => by
    rw [List.nodup_cons] at hnd
    simp only [List.map_cons, List.sum_cons]
    by_cases hvk : v = k
    · subst hvk
      rw [if_pos rfl]
      have : (ks.map (fun k => if v = k then 1 else 0)).sum = 0 :=
        List.sum_eq_zero (by
          intro x hx
          rcases List.mem_map.mp hx with ⟨k', hk', hx'⟩
          have : v ≠ k' := fun h => hnd.1 (h ▸ hk')
          rw [← hx', if_neg this])
      omega
    · rw [if_neg hvk]
      have hv' : v ∈ ks := by
        rcases List.mem_cons.mp hv with h | h
        · exact absurd h hvk
        · exact h
      rw [sum_indicator v ks hnd.2 hv']

/-- The per-key row counts over a covering list of distinct keys add up
to the number of rows that have a key at all. -/
theorem countP_key_partition {α β} [DecidableEq β] (f : α → Option β)
    (ks : List β) (hnd : ks.Nodup) :
    ∀ l : List α, (∀ a ∈ l, ∀ b, f a = some b → b ∈ ks) →
      (ks.map (fun k => l.countP (fun a => decide (f a = some k)))).sum
        = l.countP (fun a => (f a).isSome)
  | [], _ => by
    simp only [List.countP_nil]
    exact List.sum_eq_zero (by intro x hx; rcases List.mem_map.mp hx with ⟨k', _, hx'⟩; omega)
  | a :: l, hcov => by
    have hcov' : ∀ x ∈ l, ∀ b, f x = some b → b ∈ ks :=
      fun x hx => hcov x (List.mem_cons_of_mem a hx)
    have ih := countP_key_partition f ks hnd l hcov'
    simp only [List.countP_cons]
    have hsplit :
        (ks.map (fun k => l.countP (fun x => decide (f x = some k))
            + if decide (f a = some k) = true then 1 else 0)).sum
          = (ks.map (fun k => l.countP (fun x => decide (f x = some k)))).sum
            + (ks.map (fun k => if decide (f a = some k) = true then 1 else 0)).sum :=
      sum_map_add _ _ ks
    rw [hsplit, ih]
    cases hfa : f a with
    | none =>
      have h0 : (ks.map (fun k => if decide ((none : Option β) = some k) = true then 1 else 0)).sum = 0 :=
        List.sum_eq_zero (by
          intro x hx
          rcases List.mem_map.mp hx with ⟨k', _, hx'⟩
          rw [← hx', if_neg (by simp)])
      rw [h0]
      simp
    | some v =>
      have hv : v ∈ ks := hcov a (List.mem_cons_self a l) v hfa
      have h1 : (ks.map (fun k => if decide (some v = some k) = true then 1 else 0)).sum = 1 := by
        have hcg : (ks.map (fun k => if decide (some v = some k) = true then 1 else 0))
            = (ks.map (fun k => if v = k then 1 else 0)) := by
          apply List.map_congr_left
          intro k _
          by_cases hvk : v = k
          · rw [if_pos (by simp [hvk]), if_pos hvk]
          · rw [if_neg (by simp [hvk]), if_neg hvk]
        rw [hcg]
        exact sum_indicator v ks hnd hv
      rw [h1]
      simp

/-! ## The observed grouping keys -/

theorem mem_keysOf (d : Dataset) (gIdxs : List Nat) (k : List ℚ) :
    k ∈ keysOf d gIdxs ↔ ∃ r ∈ d.rows, rowKey gIdxs r = some k := by
  unfold keysOf
  rw [mem_insSort, List.mem_dedup, List.mem_filterMap]

theorem nodup_keysOf (d : Dataset) (gIdxs : List Nat) : (keysOf d gIdxs).Nodup :=
  (perm_insSort keyLe _).symm.nodup (List.nodup_dedup _)

theorem rowKey_single (i : Nat) (r : List Val) :
    rowKey [i] r = (cell r i).map (fun v => [v]) := by
  show seqOpt [cell r i] = (cell r i).map (fun v => [v])
  cases cell r i with
  | none => rfl
  | some x => rfl

theorem countP_eq_one_of_nodup [DecidableEq β] (v : β) :
    ∀ ks : List β, ks.Nodup → v ∈ ks → ks.countP (fun k => decide (k = v)) = 1
  | [], _, hv => absurd hv (List.not_mem_nil v)
  | k :: ks, hnd, hv => by
    rw [List.nodup_cons] at hnd
    rw [List.countP_cons]
    by_cases hkv : k = v
    · subst hkv
      rw [if_pos (by simp)]
      have h0 : ks.countP (fun k' => decide (k' = k)) = 0 :=
        List.countP_eq_zero.mpr (by
          intro x hx
          simp only [decide_eq_true_eq]
          exact fun hxk => hnd.1 (hxk ▸ hx))
      rw [h0]
    · rw [if_neg (by simp [hkv])]
      have hv' : v ∈ ks := by
        rcases List.mem_cons.mp hv with h | h
        · exact absurd h.symm hkv
        · exact h
      rw [countP_eq_one_of_nodup v ks hnd.2 hv']

theorem colIdxs_eq_none (d : Dataset) :
    ∀ G : List String, (∃ g ∈ G, colIdx d g = none) → colIdxs d G = none
  | [], h => absurd h (by simp)
  | c :: cs, h => by
    obtain ⟨g, hg, hnone⟩ := h
    unfold colIdxs
    rcases List.mem_cons.mp hg with rfl | hg'
    · rw [hnone]
    · have hrec : colIdxs d cs = none := colIdxs_eq_none d cs ⟨g, hg', hnone⟩
      cases hc : colIdx d c with
      | none => rfl
      | some i => rw [hrec]

end Lab05

namespace Lab05

/-! ## The claims -/

/-- **C3**: the Summary Record of a stratum counts exactly the
non-missing target values, computes every statistic from the
non-missing values only (re-inserting the present values unchanged
gives the same record, and an all-missing stratum yields count `0` with
every other field absent, not zero), and the worked example
`[10, NaN, 20, 30]` yields count `3` and mean `20`. -/
theorem summarize_nonmissing :
    (∀ vals : List Val,
        (summarize vals).count = (vals.filterMap id).length
        ∧ summarize ((vals.filterMap id).map some) = summarize vals)
    ∧ (∀ vals : List Val, (∀ v ∈ vals, v = none) →
        summarize vals = { count := 0, mean := none, var := none, min := none,
                           q25 := none, q50 := none, q75 := none, max := none })
    ∧ (summarize [some 10, none, some 20, some 30]).count = 3
    ∧ (summarize [some 10, none, some 20, some 30]).mean = some 20 := by
  refine ⟨fun vals => ⟨rfl, ?_⟩, fun vals hall => ?_, rfl, ?_⟩
  · unfold summarize
    congr 1
    simp
  · unfold summarize
    have hnil : vals.filterMap id = [] := by
      rw [List.filterMap_eq_nil]
      exact hall
    rw [hnil]
    rfl
  · rw [show summarize [some 10, none, some 20, some 30] = summaryOf [10, 20, 30] from rfl]
    norm_num [summaryOf, meanQ]

/-- **C3 witness**: an all-missing stratum has count `0` and absent
statistics. -/
theorem summarize_nonmissing_witness :
    summarize [(none : Val), none] = { count := 0, mean := none, var := none, min := none,
                                       q25 := none, q50 := none, q75 := none, max := none } :=
  summarize_nonmissing.2.1 [none, none] (by simp)

/-- **C5 counterexample**: on a data frame with columns but zero
records, the grouped `describe` of the notebook returns an empty
result; it does not fail (pandas raises no error here), refuting the
claimed `EmptyDatasetError`. -/
theorem groupSummaries_empty_ok :
    groupSummaries (Dataset.mk ["FES", "HINCP"] []) ["FES"] "HINCP" = .ok []
    ∧ groupSummaries (Dataset.mk ["FES", "HINCP"] []) ["FES"] "HINCP"
        ≠ .error AggError.emptyDataset := by
  refine ⟨rfl, ?_⟩
  intro h
  exact Except.noConfusion
    ((show (Except.ok [] : Except AggError (List (List ℚ × SummaryRecord)))
        = groupSummaries (Dataset.mk ["FES", "HINCP"] []) ["FES"] "HINCP" from rfl).trans h)

/-- **C5** (amended): on a dataset with zero records and valid column
arguments, `groupSummaries` succeeds and returns the empty mapping of
strata rather than failing. -/
theorem groupSummaries_empty_returns_empty (cols : List String) (G : List String)
    (t : String) (gIdxs : List Nat) (ti : Nat)
    (hG : colIdxs (Dataset.mk cols []) G = some gIdxs)
    (ht : colIdx (Dataset.mk cols []) t = some ti) :
    groupSummaries (Dataset.mk cols []) G t = .ok [] := by
  unfold groupSummaries
  rw [hG, ht]
  rfl

/-- **C5 witness**: the amended behaviour at a concrete empty frame. -/
theorem groupSummaries_empty_returns_empty_witness :
    groupSummaries (Dataset.mk ["FES", "HINCP", "REGION"] []) ["REGION"] "HINCP" = .ok [] :=
  groupSummaries_empty_returns_empty ["FES", "HINCP", "REGION"] ["REGION"] "HINCP"
    [2] 1 (by decide) (by decide)

/-- **C9**: the four operations are pure functions of their inputs:
run as state transformers they leave the data frame (respectively the
input summaries) exactly as they found it, and their results are the
deterministic function values. -/
theorem operations_pure (d : Dataset) (G : List String) (t name : String) (asc : Bool)
    (s : List (List ℚ × SummaryRecord)) (u : List ((ℚ × ℚ) × Val)) :
    (runGroupSummaries d G t).2 = d
    ∧ (runSortByStatistic s name asc).2 = s
    ∧ (runUnstack u).2 = u
    ∧ (runMissingnessReport d).2 = d
    ∧ (runGroupSummaries d G t).1 = groupSummaries d G t
    ∧ (runSortByStatistic s name asc).1 = sortByStatistic s name asc
    ∧ (runUnstack u).1 = unstack u
    ∧ (runMissingnessReport d).1 = missingnessReport d :=
  ⟨rfl, rfl, rfl, rfl, rfl, rfl, rfl, rfl⟩

/-- **C10**: the notebook's proportion of households with negative
income equals the number of records whose income is present and
strictly negative, divided by the total number of records — rows with
a missing income compare as not-negative and stay in the denominator. -/
theorem negIncomeShare_spec (d : Dataset) (i : Nat)
    (hi : colIdx d "HINCP" = some i) (hne : d.rows ≠ []) :
    negIncomeShare d i = some
      ((d.rows.countP (fun r =>
          match cell r i with
          | some x => decide (x < 0)
          | none => false) : ℚ) / (d.rows.length : ℚ)) := by
  have key : ∀ r : List Val, ltZero (hincp1000 (cell r i)) =
      (match cell r i with | some x => decide (x < 0) | none => false) := by
    intro r
    cases cell r i with
    | none => rfl
    | some x =>
      show decide (x / 1000 < 0) = decide (x < 0)
      rw [decide_eq_decide, div_lt_iff (show (0:ℚ) < 1000 by norm_num), zero_mul]
  unfold negIncomeShare boolMean columnValsIdx
  rw [List.map_map, List.length_map,
    if_neg (fun h0 => hne (List.length_eq_zero.mp h0)), List.countP_map]
  have hc : d.rows.countP (id ∘ (fun v => ltZero (hincp1000 v)) ∘ (fun r => cell r i))
      = d.rows.countP (fun r =>
          match cell r i with
          | some x => decide (x < 0)
          | none => false) := by
    apply List.countP_congr
    intro r _
    simp only [Function.comp_apply, id_eq]
    rw [key r]
  rw [hc]

/-- **C10 witness**: evaluated on a three-record frame with incomes
`-2000`, absent, `500`: one present-and-negative record out of three. -/
theorem negIncomeShare_spec_witness :
    negIncomeShare (Dataset.mk ["HINCP"] [[some (-2000)], [none], [some 500]]) 0 = some
      (((Dataset.mk ["HINCP"] [[some (-2000)], [none], [some 500]]).rows.countP (fun r =>
          match cell r 0 with
          | some x => decide (x < 0)
          | none => false) : ℚ)
        / ((Dataset.mk ["HINCP"] [[some (-2000)], [none], [some 500]]).rows.length : ℚ)) :=
  negIncomeShare_spec (Dataset.mk ["HINCP"] [[some (-2000)], [none], [some 500]]) 0
    (by decide) (by decide)

/-- **C7 counterexample**: on a data frame with a column and zero
records, `df.isnull().mean()` reports the absent marker (`NaN`, the
mean of an empty series) for the column — not a proportion in
`[0, 1]`. -/
theorem missingnessReport_empty_cex :
    missingnessReport (Dataset.mk ["a"] []) = [("a", (none : Val))]
    ∧ ¬ (∀ e ∈ missingnessReport (Dataset.mk ["a"] []),
          ∃ q : ℚ, e.2 = some q ∧ 0 ≤ q ∧ q ≤ 1) := by
  refine ⟨rfl, ?_⟩
  intro hall
  rcases hall ("a", none)
      (by
        rw [show missingnessReport (Dataset.mk ["a"] []) = [("a", (none : Val))] from rfl]
        exact List.mem_singleton.mpr rfl)
    with ⟨q, hq, _⟩
  exact Option.noConfusion hq

/-- **C7** (amended): on a dataset with at least one record,
`missingnessReport` maps each column, in schema order, to the
proportion of records whose value in that column is absent, and every
reported proportion is a rational in `[0, 1]`.  (On a zero-record
dataset the reported value is the absent marker instead.) -/
theorem missingnessReport_proportions (d : Dataset) (hne : d.rows ≠ []) :
    missingnessReport d
      = d.cols.enum.map (fun ic =>
          (ic.2, some ((d.rows.countP (fun r => (cell r ic.1).isNone) : ℚ)
            / (d.rows.length : ℚ))))
    ∧ (missingnessReport d).map Prod.fst = d.cols
    ∧ ∀ e ∈ missingnessReport d, ∃ q : ℚ, e.2 = some q ∧ 0 ≤ q ∧ q ≤ 1 := by
  have hlen0 : ¬((columnValsIdx d 0).length = 0) := by
    simp only [columnValsIdx, List.length_map]
    exact fun h0 => hne (List.length_eq_zero.mp h0)
  have hval : ∀ i : Nat, propMissing (columnValsIdx d i)
      = some ((d.rows.countP (fun r => (cell r i).isNone) : ℚ) / (d.rows.length : ℚ)) := by
    intro i
    unfold propMissing columnValsIdx
    rw [List.length_map, if_neg (fun h0 => hne (List.length_eq_zero.mp h0)),
      List.countP_map]
    rfl
  refine ⟨?_, ?_, ?_⟩
  · unfold missingnessReport
    apply List.map_congr_left
    intro ic _
    rw [hval ic.1]
  · unfold missingnessReport
    rw [List.map_map]
    show d.cols.enum.map Prod.snd = d.cols
    exact List.enum_map_snd d.cols
  · intro e he
    unfold missingnessReport at he
    rcases List.mem_map.mp he with ⟨ic, hic, rfl⟩
    refine ⟨(d.rows.countP (fun r => (cell r ic.1).isNone) : ℚ) / (d.rows.length : ℚ),
      hval ic.1, ?_, ?_⟩
    · exact div_nonneg (Nat.cast_nonneg _) (Nat.cast_nonneg _)
    · rw [div_le_one (by exact_mod_cast List.length_pos.mpr hne)]
      exact_mod_cast List.countP_le_length _

/-- **C7 witness**: the amended behaviour at a two-record frame with
one absent value. -/
theorem missingnessReport_proportions_witness :
    (missingnessReport (Dataset.mk ["a"] [[some 1], [none]])).map Prod.fst = ["a"]
    ∧ ∀ e ∈ missingnessReport (Dataset.mk ["a"] [[some 1], [none]]),
        ∃ q : ℚ, e.2 = some q ∧ 0 ≤ q ∧ q ≤ 1 :=
  ⟨(missingnessReport_proportions (Dataset.mk ["a"] [[some 1], [none]]) (by decide)).2.1,
   (missingnessReport_proportions (Dataset.mk ["a"] [[some 1], [none]]) (by decide)).2.2⟩

/-- **C8**: naming a grouping or target column absent from the schema
makes `groupSummaries` fail with `columnNotFound` (pandas `KeyError`),
and the operation has no partial-failure mode: on any input it either
returns a full result or an error, never partial output. -/
theorem groupSummaries_columnNotFound (d : Dataset) (G : List String) (t : String)
    (h : (∃ g ∈ G, colIdx d g = none) ∨ colIdx d t = none) :
    groupSummaries d G t = .error AggError.columnNotFound
    ∧ ∀ (d' : Dataset) (G' : List String) (t' : String),
        (∃ l, groupSummaries d' G' t' = .ok l)
        ∨ (∃ e, groupSummaries d' G' t' = .error e) := by
  constructor
  · unfold groupSummaries
    rcases h with hg | ht
    · rw [colIdxs_eq_none d G hg]
    · cases hG : colIdxs d G with
      | none => rfl
      | some gIdxs => rw [ht]
  · intro d' G' t'
    cases hr : groupSummaries d' G' t' with
    | ok l => exact Or.inl ⟨l, rfl⟩
    | error e => exact Or.inr ⟨e, rfl⟩

/-- **C8 witness**: a concrete call naming an absent grouping column. -/
theorem groupSummaries_columnNotFound_witness :
    groupSummaries datasetW ["NOPE"] "X" = .error AggError.columnNotFound :=
  (groupSummaries_columnNotFound datasetW ["NOPE"] "X"
    (Or.inl ⟨"NOPE", by decide, by decide⟩)).1

/-- **C1 counterexample**: in a one-record dataset whose grouping value
is absent, the pandas grouping (default `dropna=True`) drops the
record: there are no strata at all, so the record lies in no stratum
and the per-stratum record counts sum to `0`, not to `len(D) = 1` —
the absent marker does not form its own grouping key. -/
theorem groupSizes_missing_key_dropped :
    groupSizes (Dataset.mk ["G", "X"] [[none, some 1]]) ["G"] = .ok []
    ∧ (Dataset.mk ["G", "X"] [[none, some 1]]).rows.length = 1 :=
  ⟨rfl, rfl⟩

/-- **C1** (amended): with valid grouping columns, the strata partition
exactly the records whose grouping values are all present: a record
with a fully-present grouping key is counted in exactly one stratum, a
record with an absent grouping value in none, and the per-stratum
record counts (which count rows whose target value is missing) sum to
the number of records with fully-present grouping values — not to
`len(D)` when a grouping value is absent somewhere. -/
theorem groupSizes_partition (d : Dataset) (G : List String) (gIdxs : List Nat)
    (hG : colIdxs d G = some gIdxs) :
    groupSizes d G = .ok ((keysOf d gIdxs).map (fun k =>
        (k, d.rows.countP (fun r => decide (rowKey gIdxs r = some k)))))
    ∧ (∀ r ∈ d.rows,
        (keysOf d gIdxs).countP (fun k => decide (rowKey gIdxs r = some k))
          = if (rowKey gIdxs r).isSome then 1 else 0)
    ∧ ((keysOf d gIdxs).map (fun k =>
          d.rows.countP (fun r => decide (rowKey gIdxs r = some k)))).sum
        = d.rows.countP (fun r => (rowKey gIdxs r).isSome) := by
  refine ⟨?_, ?_, ?_⟩
  · unfold groupSizes
    rw [hG]
  · intro r hr
    cases hrk : rowKey gIdxs r with
    | none => simp
    | some k0 =>
      simp only [Option.isSome_some, if_true]
      have hcg : (keysOf d gIdxs).countP (fun k => decide (some k0 = some k))
          = (keysOf d gIdxs).countP (fun k => decide (k = k0)) :=
        List.countP_congr (by
          intro k _
          simp only [decide_eq_true_eq, Option.some.injEq]
          exact eq_comm)
      rw [hcg]
      exact countP_eq_one_of_nodup k0 (keysOf d gIdxs) (nodup_keysOf d gIdxs)
        ((mem_keysOf d gIdxs k0).mpr ⟨r, hr, hrk⟩)
  · exact countP_key_partition (rowKey gIdxs) (keysOf d gIdxs) (nodup_keysOf d gIdxs)
      d.rows (fun r hr k hk => (mem_keysOf d gIdxs k).mpr ⟨r, hr, hk⟩)

/-- **C1 witness**: the partition equation evaluated on a concrete
frame with one dropped (absent-key) record. -/
theorem groupSizes_partition_witness :
    ((keysOf datasetW [0]).map (fun k =>
        datasetW.rows.countP (fun r => decide (rowKey [0] r = some k)))).sum
      = datasetW.rows.countP (fun r => (rowKey [0] r).isSome) :=
  (groupSizes_partition datasetW ["G"] [0] (by decide)).2.2

/-- **C6**: grouping by a single column `X`, the per-key record count
of each stratum equals the direct tally of that value of `X` over the
full dataset, a value appears as a key exactly when some record holds
it, and `groupSummaries` produces the same keys. -/
theorem groupSizes_single_column_tally (d : Dataset) (X : String) (xi : Nat)
    (hX : colIdx d X = some xi) :
    ∃ l, groupSizes d [X] = .ok l
      ∧ (∀ (v : ℚ) (n : Nat), ([v], n) ∈ l →
          n = d.rows.countP (fun r => decide (cell r xi = some v)))
      ∧ (∀ v : ℚ, [v] ∈ l.map Prod.fst
          ↔ 0 < d.rows.countP (fun r => decide (cell r xi = some v)))
      ∧ (∀ (t : String) (ti : Nat), colIdx d t = some ti →
          ∃ l', groupSummaries d [X] t = .ok l' ∧ l'.map Prod.fst = l.map Prod.fst) := by
  have hG : colIdxs d [X] = some [xi] := by
    unfold colIdxs
    rw [hX]
    rfl
  have hrk : ∀ (r : List Val) (v : ℚ), rowKey [xi] r = some [v] ↔ cell r xi = some v := by
    intro r v
    rw [rowKey_single]
    cases cell r xi with
    | none => simp
    | some x => simp
  have hcnt : ∀ v : ℚ, d.rows.countP (fun r => decide (rowKey [xi] r = some [v]))
      = d.rows.countP (fun r => decide (cell r xi = some v)) := by
    intro v
    exact List.countP_congr (by intro r _; simp [hrk r v])
  refine ⟨(keysOf d [xi]).map (fun k =>
      (k, d.rows.countP (fun r => decide (rowKey [xi] r = some k)))), ?_, ?_, ?_, ?_⟩
  · unfold groupSizes
    rw [hG]
  · intro v n hmem
    rcases List.mem_map.mp hmem with ⟨k, hk, heq⟩
    obtain ⟨hk1, hk2⟩ := Prod.mk.injEq _ _ _ _ ▸ heq
    subst hk1
    rw [← hk2]
    exact hcnt v
  · intro v
    have hfst : ((keysOf d [xi]).map (fun k =>
        (k, d.rows.countP (fun r => decide (rowKey [xi] r = some k))))).map Prod.fst
        = keysOf d [xi] := by
      rw [List.map_map]
      exact List.map_id _
    rw [hfst, mem_keysOf]
    rw [List.countP_pos]
    constructor
    · rintro ⟨r, hr, hkey⟩
      exact ⟨r, hr, decide_eq_true ((hrk r v).mp hkey)⟩
    · rintro ⟨r, hr, hkey⟩
      exact ⟨r, hr, (hrk r v).mpr (of_decide_eq_true hkey)⟩
  · intro t ti ht
    refine ⟨(keysOf d [xi]).map (fun k =>
        (k, summarize ((d.rows.filter (fun r => decide (rowKey [xi] r = some k))).map
          (fun r => cell r ti)))), ?_, ?_⟩
    · unfold groupSummaries
      rw [hG, ht]
    · rw [List.map_map, List.map_map]
      rfl

/-! Unfolding equations for `insertLe`, used to evaluate a concrete sort. -/

theorem insertLe_nil (le : α → α → Bool) (a : α) : insertLe le a [] = [a] := rfl

theorem insertLe_cons_true (le : α → α → Bool) (a b : α) (bs : List α)
    (h : le a b = true) : insertLe le a (b :: bs) = a :: b :: bs := by
  unfold insertLe
  rw [if_pos h]

theorem insertLe_cons_false (le : α → α → Bool) (a b : α) (bs : List α)
    (h : le a b = false) : insertLe le a (b :: bs) = b :: insertLe le a bs := by
  rw [insertLe, if_neg (by rw [h]; exact Bool.false_ne_true)]

/-- **C2**: `unstack` returns a fully rectangular table: row labels are
the sorted distinct first key components, column labels the sorted
distinct second components, the grid has `rows × columns` cells, and
each cell holds the stored statistic when its key pair was observed and
the absent marker otherwise — also on sparse key sets. -/
theorem unstack_rectangular (s : List ((ℚ × ℚ) × Val))
    (hnd : (s.map Prod.fst).Nodup) :
    ((unstack s).1.Pairwise (fun a b => qLe a b = true)
      ∧ (unstack s).1.Nodup
      ∧ ∀ x : ℚ, x ∈ (unstack s).1 ↔ ∃ e ∈ s, e.1.1 = x)
    ∧ ((unstack s).2.1.Pairwise (fun a b => qLe a b = true)
      ∧ (unstack s).2.1.Nodup
      ∧ ∀ x : ℚ, x ∈ (unstack s).2.1 ↔ ∃ e ∈ s, e.1.2 = x)
    ∧ ((unstack s).2.2.length = (unstack s).1.length
      ∧ ∀ row ∈ (unstack s).2.2, row.length = (unstack s).2.1.length)
    ∧ (unstack s).2.2
        = (unstack s).1.map (fun r => (unstack s).2.1.map (fun c => cellLookup s r c))
    ∧ (∀ (r c : ℚ) (v : Val), ((r, c), v) ∈ s → cellLookup s r c = v)
    ∧ (∀ r c : ℚ, (∀ v : Val, ((r, c), v) ∉ s) → cellLookup s r c = none) := by
  have hr : (unstack s).1 = insSort qLe ((s.map (fun e => e.1.1)).dedup) := rfl
  have hc : (unstack s).2.1 = insSort qLe ((s.map (fun e => e.1.2)).dedup) := rfl
  have ht : (unstack s).2.2
      = (unstack s).1.map (fun r => (unstack s).2.1.map (fun c => cellLookup s r c)) := rfl
  refine ⟨⟨?_, ?_, ?_⟩, ⟨?_, ?_, ?_⟩, ⟨?_, ?_⟩, ht, ?_, ?_⟩
  · rw [hr]
    exact pairwise_insSort_of_total qLe_trans qLe_of_not _
  · rw [hr]
    exact (perm_insSort qLe _).symm.nodup (List.nodup_dedup _)
  · intro x
    rw [hr, mem_insSort, List.mem_dedup, List.mem_map]
  · rw [hc]
    exact pairwise_insSort_of_total qLe_trans qLe_of_not _
  · rw [hc]
    exact (perm_insSort qLe _).symm.nodup (List.nodup_dedup _)
  · intro x
    rw [hc, mem_insSort, List.mem_dedup, List.mem_map]
  · rw [ht, List.length_map]
  · intro row hrow
    rw [ht] at hrow
    rcases List.mem_map.mp hrow with ⟨r, _, hreq⟩
    rw [← hreq, List.length_map]
  · intro r c v hmem
    have hex : ∃ e ∈ s, (fun e => decide (e.1 = (r, c))) e = true :=
      ⟨((r, c), v), hmem, by simp⟩
    obtain ⟨e, he⟩ := Option.isSome_iff_exists.mp (List.find?_isSome.mpr hex)
    have hemem := List.mem_of_find?_eq_some he
    have hpe0 : (fun e => decide (e.1 = (r, c))) e = true :=
      @List.find?_some _ (fun e => decide (e.1 = (r, c))) e s he
    have hpe : e.1 = (r, c) := of_decide_eq_true hpe0
    have heq : e = ((r, c), v) :=
      List.inj_on_of_nodup_map hnd hemem hmem (by rw [hpe])
    unfold cellLookup
    rw [he, heq]
  · intro r c hnone
    have hfind : s.find? (fun e => decide (e.1 = (r, c))) = none := by
      rw [List.find?_eq_none]
      intro x hx hpx
      have hx1 : x.1 = (r, c) := of_decide_eq_true hpx
      apply hnone x.2
      rw [← hx1, Prod.mk.eta]
      exact hx
    unfold cellLookup
    rw [hfind]

/-- **C2 witness**: the rectangularity conclusions at a sparse concrete
key set (`2 × 2` grid from two observed keys). -/
theorem unstack_rectangular_witness :
    ((unstack [((1, 2), some 5), ((2, 1), none)]).2.2.length
        = (unstack [((1, 2), some 5), ((2, 1), none)]).1.length
      ∧ ∀ row ∈ (unstack [((1, 2), some 5), ((2, 1), none)]).2.2,
          row.length = (unstack [((1, 2), some 5), ((2, 1), none)]).2.1.length) :=
  (unstack_rectangular [((1, 2), some 5), ((2, 1), none)] (by decide)).2.2.1

/-- **C4 counterexample**: the claim quantifies over every statistic
name, but sorting by a field `describe` does not produce (here
`"median"`; the median column is called `"50%"`) makes the pandas call
raise `KeyError` — modelled as `columnNotFound` — so no ordering of the
strata is returned at all.  (The claim's stable key-lexical tie-break
clause is likewise not a property of the code: `sort_values` defaults
to `kind='quicksort'`, which pandas documents as not stable, so the
order among strata with equal statistics is not guaranteed.) -/
theorem sortByStatistic_unknown_field :
    sortByStatistic sortExample "median" true = .error AggError.columnNotFound
    ∧ ∀ l, sortByStatistic sortExample "median" true ≠ .ok l := by
  have herr : sortByStatistic sortExample "median" true = .error AggError.columnNotFound := by
    unfold sortByStatistic
    rw [if_neg (by decide)]
  exact ⟨herr, fun l h => Except.noConfusion (herr.symm.trans h)⟩

/-- **C4** (amended): `sortByStatistic` with a valid `describe`-field
name returns a permutation of all (Grouping Key, Summary Record) pairs
that is ordered by the chosen statistic in the requested direction
under the total comparator `pairLe`, with every stratum whose
statistic is absent after every stratum with a present value for both
directions; the worked example `[(A,5),(B,absent),(C,2)]` sorted
ascending gives `[C, A, B]` (its statistics are pairwise distinct, so
this output is forced by the comparator alone).  No order among strata
with equal statistics is claimed: pandas' default sort kind does not
guarantee one. -/
theorem sortByStatistic_absent_last (s : List (List ℚ × SummaryRecord)) (name : String)
    (asc : Bool) (hname : name ∈ statNames) :
    ∃ l, sortByStatistic s name asc = .ok l
      ∧ l.Perm s
      ∧ l.Pairwise (fun a b => pairLe asc name a b = true)
      ∧ l.Pairwise (fun a b => getStat name a.2 = none → getStat name b.2 = none)
      ∧ (∀ a ∈ l, ∀ b ∈ l, pairLe asc name a b = true ∨ pairLe asc name b a = true)
      ∧ sortByStatistic sortExample "50%" true
          = .ok [([3], summaryOf [2]), ([1], summaryOf [5]), ([2], summaryOf [])] := by
  have hq2 : (summaryOf [2]).q50 = some 2 := by
    norm_num [summaryOf, quantileSorted, ratFloorNat, insSort, insertLe]
  have hq5 : (summaryOf [5]).q50 = some 5 := by
    norm_num [summaryOf, quantileSorted, ratFloorNat, insSort, insertLe]
  have hg : ∀ r : SummaryRecord, getStat "50%" r = r.q50 := fun r => rfl
  have eBC : pairLe true "50%" ([2], summaryOf []) ([3], summaryOf [2]) = false := by
    unfold pairLe
    rw [hg, hg, hq2]
    rfl
  have eAC : pairLe true "50%" ([1], summaryOf [5]) ([3], summaryOf [2]) = false := by
    unfold pairLe
    rw [hg, hg, hq5, hq2]
    show decide ((5:ℚ) ≤ 2) = false
    norm_num
  have eAB : pairLe true "50%" ([1], summaryOf [5]) ([2], summaryOf []) = true := by
    unfold pairLe
    rw [hg, hg, hq5]
    rfl
  have hex : sortByStatistic sortExample "50%" true
      = .ok [([3], summaryOf [2]), ([1], summaryOf [5]), ([2], summaryOf [])] := by
    unfold sortByStatistic
    rw [if_pos (show "50%" ∈ statNames by decide)]
    have hsort : insSort (pairLe true "50%") sortExample
        = [([3], summaryOf [2]), ([1], summaryOf [5]), ([2], summaryOf [])] := by
      show insertLe (pairLe true "50%") ([1], summaryOf [5])
          (insertLe (pairLe true "50%") ([2], summaryOf [])
            (insertLe (pairLe true "50%") ([3], summaryOf [2]) [])) = _
      rw [insertLe_nil, insertLe_cons_false _ _ _ _ eBC, insertLe_nil,
        insertLe_cons_false _ _ _ _ eAC, insertLe_cons_true _ _ _ _ eAB]
    rw [hsort]
  have hsorted : (insSort (pairLe asc name) s).Pairwise
      (fun a b => pairLe asc name a b = true) :=
    pairwise_insSort_of_total (pairLe_trans asc name) (pairLe_of_not asc name) s
  refine ⟨insSort (pairLe asc name) s, ?_, perm_insSort _ s, hsorted, ?_, ?_, hex⟩
  · unfold sortByStatistic
    rw [if_pos hname]
  · exact hsorted.imp (fun hab ha => pairLe_absent_last asc name _ _ hab ha)
  · intro a _ b _
    cases hab : pairLe asc name a b with
    | false => exact Or.inr (pairLe_of_not asc name a b hab)
    | true => exact Or.inl rfl

/-- **C4 witness**: the amended sorting contract applied to the worked
example (strata `A`, `B`, `C` with medians `5`, absent, `2`). -/
theorem sortByStatistic_absent_last_witness :
    ∃ l, sortByStatistic sortExample "50%" true = .ok l
      ∧ l.Perm sortExample
      ∧ l.Pairwise (fun a b => pairLe true "50%" a b = true)
      ∧ l.Pairwise (fun a b => getStat "50%" a.2 = none → getStat "50%" b.2 = none)
      ∧ (∀ a ∈ l, ∀ b ∈ l, pairLe true "50%" a b = true ∨ pairLe true "50%" b a = true)
      ∧ sortByStatistic sortExample "50%" true
          = .ok [([3], summaryOf [2]), ([1], summaryOf [5]), ([2], summaryOf [])] :=
  sortByStatistic_absent_last sortExample "50%" true (by decide)

/-- **C6 witness**: the tally property evaluated on the concrete frame
`datasetW` (two records with `G = 1`, one with `G` absent). -/
theorem groupSizes_single_column_tally_witness :
    ∃ l, groupSizes datasetW ["G"] = .ok l
      ∧ (∀ (v : ℚ) (n : Nat), ([v], n) ∈ l →
          n = datasetW.rows.countP (fun r => decide (cell r 0 = some v)))
      ∧ (∀ v : ℚ, [v] ∈ l.map Prod.fst
          ↔ 0 < datasetW.rows.countP (fun r => decide (cell r 0 = some v)))
      ∧ (∀ (t : String) (ti : Nat), colIdx datasetW t = some ti →
          ∃ l', groupSummaries datasetW ["G"] t = .ok l' ∧ l'.map Prod.fst = l.map Prod.fst) :=
  groupSizes_single_column_tally datasetW "G" 0 (by decide)

end Lab05
